import Mathlib

/-!
Verification of the availability REST handler
(`modules/courses/availability.py`): the hierarchy flattener
(`traverse_course`) and the settings merger (`put`).

The course model (`models/courses.py`) is not part of the handler's file;
its accessors (`get_units`, `get_lessons`, `find_unit_by_id`,
`find_lesson_by_id`, `get_parent_unit`) and the entity attributes are
modelled from the design document's data-model section.
-/

set_option autoImplicit false

namespace Availability

/-- Modelled from the spec: the discriminator "whether it is a plain unit
or an assessment" carried by every `Unit`. -/
inductive UnitKind where
  | unit
  | assessment
deriving DecidableEq, Repr

/-- Modelled from the spec: a `Unit` is a top-level course section or a
standalone assessment, with identifier, title, availability enum (kept as a
string), shown-when-unavailable flag, kind discriminator, and optional
pre/post assessment references (by unit identifier). -/
structure Unit where
  unit_id : Nat
  title : String
  availability : String
  shown_when_unavailable : Bool
  kind : UnitKind
  pre_assessment : Option Nat
  post_assessment : Option Nat
deriving DecidableEq, Repr

/-- Modelled from the spec: a `Lesson` belongs to exactly one `Unit`
(recorded here by the owning unit's identifier) and carries identifier,
title, availability and shown-when-unavailable. -/
structure Lesson where
  lesson_id : Nat
  unit_id : Nat
  title : String
  availability : String
  shown_when_unavailable : Bool
deriving DecidableEq, Repr

/-- Modelled from the spec: a `Course` holds an ordered sequence of units
and, per unit, an ordered sequence of lessons (kept flat here, in stored
order, each lesson tagged with its owning unit's id). -/
structure Course where
  units : List Unit
  lessons : List Lesson
deriving DecidableEq, Repr

/-- `unit.is_unit()`: the unit is a plain unit (not an assessment). -/
def Unit.is_unit (u : Unit) : Bool :=
  match u.kind with
  | UnitKind.unit => true
  | UnitKind.assessment => false

/-- `unit.is_assessment()`: the unit is a standalone assessment. -/
def Unit.is_assessment (u : Unit) : Bool :=
  match u.kind with
  | UnitKind.unit => false
  | UnitKind.assessment => true

/-- Modelled from the spec: `course.get_units()` returns the units in
stored authoring order. -/
def Course.get_units (c : Course) : List Unit := c.units

/-- Modelled from the spec: `course.find_unit_by_id(id)` resolves a unit id
to the (first) live unit with that identifier, or nothing. -/
def Course.find_unit_by_id (c : Course) (i : Nat) : Option Unit :=
  c.units.find? (fun u => u.unit_id == i)

/-- Modelled from the spec: `course.find_lesson_by_id(None, id)` resolves a
lesson id to the (first) live lesson with that identifier, unit-agnostic. -/
def Course.find_lesson_by_id (c : Course) (i : Nat) : Option Lesson :=
  c.lessons.find? (fun l => l.lesson_id == i)

/-- Modelled from the spec: `course.get_lessons(unit_id)` returns the
lessons belonging to the given unit, in stored lesson order. -/
def Course.get_lessons (c : Course) (uid : Nat) : List Lesson :=
  c.lessons.filter (fun l => l.unit_id == uid)

/-- Modelled from the spec: `course.get_parent_unit(unit_id)` returns a
unit that references `unit_id` as its pre- or post-assessment, if any. -/
def Course.get_parent_unit (c : Course) (uid : Nat) : Option Unit :=
  c.units.find? (fun u => u.pre_assessment == some uid
                       || u.post_assessment == some uid)

/-- The flattened projection of a unit or lesson built by
`AvailabilityRESTHandler.add_unit` / `add_lesson` (the dict with keys
`type`, `id`, `indent`, `name`, `availability`, `shown_when_unavailable`). -/
structure Element where
  type : String
  id : Nat
  indent : Bool
  name : String
  availability : String
  shown_when_unavailable : Bool
deriving DecidableEq, Repr

/-- `AvailabilityRESTHandler.add_unit(unit, elements, indent)`: the element
appended for a unit. -/
def add_unit (u : Unit) (indent : Bool) : Element :=
  { type := "unit", id := u.unit_id, indent := indent, name := u.title,
    availability := u.availability,
    shown_when_unavailable := u.shown_when_unavailable }

/-- `AvailabilityRESTHandler.add_lesson(lesson, elements)`: the element
appended for a lesson, always with `indent = true`. -/
def add_lesson (l : Lesson) : Element :=
  { type := "lesson", id := l.lesson_id, indent := true, name := l.title,
    availability := l.availability,
    shown_when_unavailable := l.shown_when_unavailable }

/-- The elements contributed for one pre- or post-assessment reference:
`add_unit(course.find_unit_by_id(ref), elements, indent=True)`.  A dangling
reference makes the lookup return nothing and the subsequent attribute
access fail (Python `AttributeError`), modelled as `none`. -/
def assessment_ref (c : Course) : Option Nat → Option (List Element)
  | none => some []
  | some p =>
    match c.find_unit_by_id p with
    | some a => some [add_unit a true]
    | none => none

/-- The elements contributed by one iteration of `traverse_course`'s loop
for unit `u`: skip an assessment that has a parent unit; otherwise emit the
unit, and for a plain unit also its pre-assessment, its lessons, and its
post-assessment, all indented. -/
def unit_block (c : Course) (u : Unit) : Option (List Element) :=
  if u.is_assessment && (c.get_parent_unit u.unit_id).isSome then
    some []
  else if u.is_unit then
    match assessment_ref c u.pre_assessment,
          assessment_ref c u.post_assessment with
    | some pre, some post =>
      some (add_unit u false ::
            (pre ++ (c.get_lessons u.unit_id).map add_lesson ++ post))
    | _, _ => none
  else
    some [add_unit u false]

/-- The loop of `AvailabilityRESTHandler.traverse_course` over a list of
units, concatenating each unit's contribution. -/
def traverse_go (c : Course) : List Unit → Option (List Element)
  | [] => some []
  | u :: rest =>
    match unit_block c u, traverse_go c rest with
    | some bl, some tl => some (bl ++ tl)
    | _, _ => none

/-- `AvailabilityRESTHandler.traverse_course(course)`. -/
def traverse_course (c : Course) : Option (List Element) :=
  traverse_go c c.units

/-- One entry of the payload's `element_settings` list.  `availability` and
`shown_when_unavailable` are optional because `put` tests key presence
(`'availability' in item`) before writing. -/
structure Item where
  type : String
  id : Nat
  availability : Option String
  shown_when_unavailable : Option Bool
deriving DecidableEq, Repr

/-- The JSON write payload.  For the scalar keys, the outer `Option` is key
presence and the inner `Option` is the JSON value possibly being `null`, so
that `payload.get(key)` (which conflates the two) is `pget` below.
`element_settings` defaults to the empty list when absent, as in
`payload.get('element_settings', [])`. -/
structure Payload where
  whitelist : Option (Option String)
  show_lessons_in_syllabus : Option (Option Bool)
  course_availability : Option (Option String)
  element_settings : List Item
deriving DecidableEq, Repr

/-- Python's `payload.get(key)`: `None` both when the key is absent and
when it is present with value `null`. -/
def pget {α : Type} : Option (Option α) → Option α
  | some v => v
  | none => none

/-- The scalar course settings mutated by `put` (stored whitelist text and
the show-lessons-in-syllabus flag). -/
structure Settings where
  whitelist : String
  show_lessons_in_syllabus : Bool
deriving DecidableEq, Repr

/-- The persistent state `put` acts on: the settings record, the course's
unit/lesson tree, and the course-wide availability policy (written through
the course model's dedicated setter, treated as opaque). -/
structure Store where
  settings : Settings
  course : Course
  course_availability : String
deriving DecidableEq, Repr

/-- Lines 183-191 of `put`: merge `whitelist` and
`show_lessons_in_syllabus` into the settings when `payload.get` yields a
value. -/
def merge_settings (s : Settings) (p : Payload) : Settings :=
  let s1 :=
    match pget p.whitelist with
    | some w => { s with whitelist := w }
    | none => s
  match pget p.show_lessons_in_syllabus with
  | some b => { s1 with show_lessons_in_syllabus := b }
  | none => s1

/-- Lines 194-196 of `put`: whether `course.set_course_availability` is
invoked (`if course_availability:` — truthy means present and non-empty). -/
def ca_invoked (p : Payload) : Bool :=
  match pget p.course_availability with
  | some s => if s = "" then false else true
  | none => false

/-- Lines 194-196 of `put`: the effect of the course-availability step on
the store. -/
def ca_apply (db : Store) (p : Payload) : Store :=
  match pget p.course_availability with
  | some s => if s = "" then db else { db with course_availability := s }
  | none => db

/-- The field writes of one element-settings entry on a unit (lines
207-211): overwrite `availability` / `shown_when_unavailable` exactly when
the entry carries the key. -/
def set_item_fields_unit (it : Item) (u : Unit) : Unit :=
  { u with
    availability :=
      match it.availability with
      | some a => a
      | none => u.availability,
    shown_when_unavailable :=
      match it.shown_when_unavailable with
      | some b => b
      | none => u.shown_when_unavailable }

/-- The field writes of one element-settings entry on a lesson. -/
def set_item_fields_lesson (it : Item) (l : Lesson) : Lesson :=
  { l with
    availability :=
      match it.availability with
      | some a => a
      | none => l.availability,
    shown_when_unavailable :=
      match it.shown_when_unavailable with
      | some b => b
      | none => l.shown_when_unavailable }

/-- In-place mutation of the first entity with the given id (Python's
`find_...by_id` returns the stored object and the loop mutates it). -/
def updateFirstE {β : Type} (idOf : β → Nat) (i : Nat) (f : β → β) :
    List β → List β
  | [] => []
  | b :: rest =>
    if idOf b = i then f b :: rest else b :: updateFirstE idOf i f rest

/-- Lines 199-211 of `put`, one loop iteration: dispatch on `item['type']`,
resolve the entity, silently skip a missing entity, and raise
`ValueError` on any other type. -/
def applyItem (c : Course) (it : Item) : Except String Course :=
  if it.type = "unit" then
    match c.find_unit_by_id it.id with
    | some _ =>
      Except.ok { c with
        units := updateFirstE Unit.unit_id it.id (set_item_fields_unit it)
                   c.units }
    | none => Except.ok c
  else if it.type = "lesson" then
    match c.find_lesson_by_id it.id with
    | some _ =>
      Except.ok { c with
        lessons := updateFirstE Lesson.lesson_id it.id
                     (set_item_fields_lesson it) c.lessons }
    | none => Except.ok c
  else
    Except.error ("Unexpected item type " ++ it.type)

/-- The whole element-settings loop of `put`. -/
def applyItems (c : Course) : List Item → Except String Course
  | [] => Except.ok c
  | it :: rest =>
    match applyItem c it with
    | Except.ok c2 => applyItems c2 rest
    | Except.error e => Except.error e

/-- The observable outcome of one `put` request: the persistent store as
the request leaves it, the raised error if any, and which persistence
effects ran (`course.save_settings`, `course.set_course_availability`,
`course.save`). -/
structure PutResult where
  store : Store
  error : Option String
  settings_saved : Bool
  availability_setter_invoked : Bool
  tree_saved : Bool
deriving DecidableEq, Repr

/-- `AvailabilityRESTHandler.put` after the access checks (lines 178-213):
merge scalar settings, `course.save_settings(settings)`, the
course-availability setter, the element-settings loop (which may raise
`ValueError`, leaving the in-memory tree unsaved), then `course.save()`. -/
def put (db : Store) (p : Payload) : PutResult :=
  let db1 : Store := { db with settings := merge_settings db.settings p }
  let db2 : Store := ca_apply db1 p
  match applyItems db2.course p.element_settings with
  | Except.error e =>
    { store := db2, error := some e, settings_saved := true,
      availability_setter_invoked := ca_invoked p, tree_saved := false }
  | Except.ok c2 =>
    { store := { db2 with course := c2 }, error := none,
      settings_saved := true,
      availability_setter_invoked := ca_invoked p, tree_saved := true }

/-- An element-settings entry is well-typed when its `type` is one the
merger accepts. -/
def wt (it : Item) : Prop := it.type = "unit" ∨ it.type = "lesson"

instance wt.decidable (it : Item) : Decidable (wt it) := by
  unfold wt; infer_instance

/-- The payload entry corresponding to an element of the flattener's
output, mapping `availability` and `shown_when_unavailable` to
themselves. -/
def elem_to_item (e : Element) : Item :=
  { type := e.type, id := e.id, availability := some e.availability,
    shown_when_unavailable := some e.shown_when_unavailable }

end Availability

namespace Availability

/-! ### Basic facts about the merger's pieces -/

theorem pget_some_none {α : Type} : pget (some (none : Option α)) = none := rfl

theorem merge_settings_whitelist_absent (s : Settings) (p : Payload)
    (h : p.whitelist = none) :
    (merge_settings s p).whitelist = s.whitelist := by
  unfold merge_settings
  rw [h]
  cases hs : pget p.show_lessons_in_syllabus <;> rfl

theorem merge_settings_whitelist_present (s : Settings) (p : Payload) (w : String)
    (h : p.whitelist = some (some w)) :
    (merge_settings s p).whitelist = w := by
  unfold merge_settings
  rw [h]
  cases hs : pget p.show_lessons_in_syllabus <;> rfl

theorem ca_apply_course (db : Store) (p : Payload) :
    (ca_apply db p).course = db.course := by
  unfold ca_apply
  cases pget p.course_availability with
  | none => rfl
  | some s => by_cases h : s = "" <;> simp [h]

theorem ca_apply_settings (db : Store) (p : Payload) :
    (ca_apply db p).settings = db.settings := by
  unfold ca_apply
  cases pget p.course_availability with
  | none => rfl
  | some s => by_cases h : s = "" <;> simp [h]

theorem put_store_settings (db : Store) (p : Payload) :
    (put db p).settings_saved = true ∧
    (put db p).store.settings = merge_settings db.settings p := by
  unfold put
  cases h : applyItems (ca_apply { db with settings := merge_settings db.settings p } p).course
      p.element_settings <;>
    simp [h, ca_apply_settings]

/-! ### The element-settings loop: error conditions -/

theorem applyItem_bad (c : Course) (it : Item) (h : ¬ wt it) :
    applyItem c it = Except.error ("Unexpected item type " ++ it.type) := by
  unfold wt at h
  push_neg at h
  unfold applyItem
  rw [if_neg h.1, if_neg h.2]

theorem applyItem_ok_of_wt (c : Course) (it : Item) (h : wt it) :
    ∃ c2, applyItem c it = Except.ok c2 := by
  unfold applyItem
  cases h with
  | inl h =>
    rw [if_pos h]
    cases c.find_unit_by_id it.id <;> exact ⟨_, rfl⟩
  | inr h =>
    by_cases hu : it.type = "unit"
    · rw [if_pos hu]
      cases c.find_unit_by_id it.id <;> exact ⟨_, rfl⟩
    · rw [if_neg hu, if_pos h]
      cases c.find_lesson_by_id it.id <;> exact ⟨_, rfl⟩

theorem applyItems_eq_error (l : List Item) :
    ∀ c : Course, (∃ it ∈ l, ¬ wt it) →
    ∃ msg, applyItems c l = Except.error msg := by
  induction l with
  | nil => intro c h; obtain ⟨it, hmem, _⟩ := h; cases hmem
  | cons it rest ih =>
    intro c h
    by_cases hwt : wt it
    · obtain ⟨c2, hc2⟩ := applyItem_ok_of_wt c it hwt
      obtain ⟨it', hmem', hbad'⟩ := h
      have hrest : it' ∈ rest := by
        cases hmem' with
        | head => exact absurd hwt hbad'
        | tail _ h => exact h
      obtain ⟨msg, hmsg⟩ := ih c2 ⟨it', hrest, hbad'⟩
      exact ⟨msg, by simp [applyItems, hc2, hmsg]⟩
    · refine ⟨"Unexpected item type " ++ it.type, ?_⟩
      simp [applyItems, applyItem_bad c it hwt]

/-! ### Claim C1 -/

/-- A store and a payload with a single `type: "section"` entry, exhibiting
the write's behaviour on an invalid element type. -/
def c1_store : Store :=
  { settings := { whitelist := "w", show_lessons_in_syllabus := false },
    course :=
      { units := [⟨1, "U1", "course", false, UnitKind.unit, none, none⟩],
        lessons := [] },
    course_availability := "private" }

def c1_payload : Payload :=
  { whitelist := none, show_lessons_in_syllabus := none,
    course_availability := none,
    element_settings := [⟨"section", 1, some "public", none⟩] }

/-- C1 counterexample: on a payload with a `type: "section"` entry the
write does abort with an unrecoverable error, but — contrary to the claim —
the settings persistence call (`course.save_settings`, line 192) has
already occurred by the time the error is raised: it precedes the
element-settings loop unconditionally. -/
theorem claim_C1_counterexample :
    (put c1_store c1_payload).error.isSome = true ∧
    (put c1_store c1_payload).settings_saved = true := by
  constructor <;> rfl

/-- C1 (amended): for every write payload whose `element_settings` list
contains an entry whose `type` is neither `"unit"` nor `"lesson"`, the
write aborts with an unrecoverable error, and the unit/lesson-tree save
(`course.save`) has not occurred by the time the error is raised — the
stored tree is unchanged; the settings save, however, has already
occurred, since it precedes element processing unconditionally. -/
theorem claim_C1_amended (db : Store) (p : Payload)
    (h : ∃ it ∈ p.element_settings, it.type ≠ "unit" ∧ it.type ≠ "lesson") :
    (put db p).error.isSome = true ∧
    (put db p).tree_saved = false ∧
    (put db p).store.course = db.course ∧
    (put db p).settings_saved = true := by
  have hbad : ∃ it ∈ p.element_settings, ¬ wt it := by
    obtain ⟨it, hmem, h1, h2⟩ := h
    exact ⟨it, hmem, by unfold wt; push_neg; exact ⟨h1, h2⟩⟩
  obtain ⟨msg, hmsg⟩ := applyItems_eq_error p.element_settings
    (ca_apply { db with settings := merge_settings db.settings p } p).course hbad
  simp only [ca_apply_course] at hmsg
  unfold put
  simp [hmsg, ca_apply_course]

theorem claim_C1_amended_witness :
    (put c1_store c1_payload).error.isSome = true ∧
    (put c1_store c1_payload).tree_saved = false ∧
    (put c1_store c1_payload).store.course = c1_store.course ∧
    (put c1_store c1_payload).settings_saved = true :=
  claim_C1_amended c1_store c1_payload
    ⟨⟨"section", 1, some "public", none⟩, by simp [c1_payload], by decide, by decide⟩

/-! ### Claim C5 -/

/-- C5: omitting `whitelist` from the payload leaves the stored whitelist
text unchanged by the write; submitting `whitelist: ""` overwrites the
stored whitelist text to the empty string. -/
theorem claim_C5 (db : Store) (p : Payload) :
    (p.whitelist = none →
      (put db p).store.settings.whitelist = db.settings.whitelist) ∧
    (p.whitelist = some (some "") →
      (put db p).store.settings.whitelist = "") := by
  have hs := (put_store_settings db p).2
  constructor
  · intro h
    rw [hs, merge_settings_whitelist_absent db.settings p h]
  · intro h
    rw [hs, merge_settings_whitelist_present db.settings p "" h]

/-- A payload with every key absent, used to instantiate hypotheses. -/
def empty_payload : Payload :=
  { whitelist := none, show_lessons_in_syllabus := none,
    course_availability := none, element_settings := [] }

theorem claim_C5_witness :
    (empty_payload.whitelist = none →
      (put c1_store empty_payload).store.settings.whitelist
        = c1_store.settings.whitelist) ∧
    (empty_payload.whitelist = some (some "") →
      (put c1_store empty_payload).store.settings.whitelist = "") :=
  claim_C5 c1_store empty_payload

/-! ### Claim C8 -/

/-- C8: the course model's dedicated course-availability setter is invoked
exactly when the payload carries a non-empty `course_availability` value;
when it does not (key absent, `null`, or empty string), the setter is not
invoked and the course-wide availability policy is unchanged by this
step. -/
theorem claim_C8 (db : Store) (p : Payload) :
    ((put db p).availability_setter_invoked = true ↔
      ∃ s, pget p.course_availability = some s ∧ s ≠ "") ∧
    ((put db p).availability_setter_invoked = false →
      (put db p).store.course_availability = db.course_availability) := by
  have hinv : (put db p).availability_setter_invoked = ca_invoked p := by
    unfold put
    cases h : applyItems
        (ca_apply { db with settings := merge_settings db.settings p } p).course
        p.element_settings <;> simp [h]
  have hca : (put db p).store.course_availability =
      (ca_apply { db with settings := merge_settings db.settings p } p).course_availability := by
    unfold put
    cases h : applyItems
        (ca_apply { db with settings := merge_settings db.settings p } p).course
        p.element_settings <;> simp [h]
  constructor
  · rw [hinv]
    unfold ca_invoked
    cases h : pget p.course_availability with
    | none => simp
    | some s => by_cases hs : s = "" <;> simp [hs]
  · intro hfalse
    rw [hinv] at hfalse
    rw [hca]
    unfold ca_invoked at hfalse
    unfold ca_apply
    cases h : pget p.course_availability with
    | none => rfl
    | some s =>
      rw [h] at hfalse
      by_cases hs : s = ""
      · simp [hs]
      · simp [hs] at hfalse

theorem claim_C8_witness :
    ((put c1_store c1_payload).availability_setter_invoked = true ↔
      ∃ s, pget c1_payload.course_availability = some s ∧ s ≠ "") ∧
    ((put c1_store c1_payload).availability_setter_invoked = false →
      (put c1_store c1_payload).store.course_availability
        = c1_store.course_availability) :=
  claim_C8 c1_store c1_payload

/-! ### Claim C9 -/

/-- C9: for the scalar fields `whitelist` and `show_lessons_in_syllabus`,
a payload carrying the key with an explicit JSON `null` is handled exactly
like a payload without the key: `payload.get` conflates the two, so the
whole write behaves identically. -/
theorem claim_C9 (db : Store) (p : Payload) :
    put db { p with whitelist := some none } =
      put db { p with whitelist := none } ∧
    put db { p with show_lessons_in_syllabus := some none } =
      put db { p with show_lessons_in_syllabus := none } :=
  ⟨rfl, rfl⟩

end Availability

namespace Availability

/-! ### Last-writer characterisation of repeated field overwrites -/

/-- Folding a sequence of optional overwrites over a scalar field. -/
def write_fold {α : Type} (g : Item → Option α) (d : α) (ws : List Item) : α :=
  ws.foldl (fun acc it =>
    match g it with
    | some a => a
    | none => acc) d

/-- The last value written by a sequence of optional overwrites, if any. -/
def last_write {α : Type} (g : Item → Option α) (ws : List Item) : Option α :=
  ws.foldl (fun acc it =>
    match g it with
    | some a => some a
    | none => acc) none

theorem write_fold_acc {α : Type} (g : Item → Option α) :
    ∀ (ws : List Item) (acc : Option α) (d : α),
    write_fold g (acc.getD d) ws =
      (ws.foldl (fun acc it =>
        match g it with
        | some a => some a
        | none => acc) acc).getD d := by
  intro ws
  induction ws with
  | nil => intro acc d; rfl
  | cons it ws ih =>
    intro acc d
    have hstep :
        (match g it with
         | some a => a
         | none => acc.getD d) =
        (Option.getD (match g it with
         | some a => some a
         | none => acc) d) := by
      cases g it <;> rfl
    show write_fold g (match g it with
      | some a => a
      | none => acc.getD d) ws = _
    rw [hstep, ih]
    rfl

theorem write_fold_eq {α : Type} (g : Item → Option α) (d : α) (ws : List Item) :
    write_fold g d ws = (last_write g ws).getD d :=
  write_fold_acc g ws none d

theorem write_fold_idem {α : Type} (g : Item → Option α) (d : α) (ws : List Item) :
    write_fold g (write_fold g d ws) ws = write_fold g d ws := by
  rw [write_fold_eq g d ws, write_fold_eq g ((last_write g ws).getD d) ws]
  cases last_write g ws <;> rfl

/-! ### The loop as a fold over entity lists -/

/-- Sequential application of every write a list of entries performs on one
entity. -/
def applyWritesE {β : Type} (wr : Item → β → β) (b : β) (ws : List Item) : β :=
  ws.foldl (fun b it => wr it b) b

/-- One loop iteration's effect on a list of entities of one type:
entries of the other type (or with no matching id) leave it unchanged. -/
def stepE {β : Type} (idOf : β → Nat) (tystr : String) (wr : Item → β → β)
    (bs : List β) (it : Item) : List β :=
  if it.type = tystr then updateFirstE idOf it.id (wr it) bs else bs

/-- The whole loop's effect on a list of entities of one type. -/
def foldE {β : Type} (idOf : β → Nat) (tystr : String) (wr : Item → β → β)
    (bs : List β) (l : List Item) : List β :=
  l.foldl (stepE idOf tystr wr) bs

theorem updateFirstE_map {β : Type} (idOf : β → Nat) (i : Nat) (f : β → β)
    (hf : ∀ b, idOf (f b) = idOf b) :
    ∀ bs : List β, (updateFirstE idOf i f bs).map idOf = bs.map idOf := by
  intro bs
  induction bs with
  | nil => rfl
  | cons b rest ih =>
    unfold updateFirstE
    by_cases h : idOf b = i
    · simp [h, hf]
    · simp [h, ih]

theorem updateFirstE_no_match {β : Type} (idOf : β → Nat) (i : Nat) (f : β → β) :
    ∀ bs : List β, (∀ b ∈ bs, idOf b ≠ i) → updateFirstE idOf i f bs = bs := by
  intro bs
  induction bs with
  | nil => intro _; rfl
  | cons b rest ih =>
    intro h
    unfold updateFirstE
    rw [if_neg (h b (List.mem_cons_self b rest))]
    rw [ih (fun x hx => h x (List.mem_cons_of_mem b hx))]

theorem updateFirstE_cons {β : Type} (idOf : β → Nat) (i : Nat) (f : β → β)
    (b : β) (rest : List β) :
    updateFirstE idOf i f (b :: rest) =
      if idOf b = i then f b :: rest else b :: updateFirstE idOf i f rest := rfl

theorem updateFirstE_first {β : Type} (idOf : β → Nat) (i : Nat) (f : β → β) :
    ∀ (bs : List β) (m : β), bs.find? (fun b => idOf b == i) = some m →
    f m = m → updateFirstE idOf i f bs = bs := by
  intro bs
  induction bs with
  | nil => intro m h; cases h
  | cons b rest ih =>
    intro m hfind hfix
    rw [updateFirstE_cons]
    by_cases h : idOf b = i
    · have hb : (idOf b == i) = true := by simpa using h
      simp only [List.find?_cons, hb] at hfind
      cases hfind
      rw [if_pos h, hfix]
    · have hb : (idOf b == i) = false := by simpa using h
      simp only [List.find?_cons, hb] at hfind
      rw [if_neg h, ih m hfind hfix]

theorem stepE_map {β : Type} (idOf : β → Nat) (tystr : String)
    (wr : Item → β → β) (hw : ∀ it b, idOf (wr it b) = idOf b)
    (bs : List β) (it : Item) :
    (stepE idOf tystr wr bs it).map idOf = bs.map idOf := by
  unfold stepE
  by_cases h : it.type = tystr
  · rw [if_pos h, updateFirstE_map idOf it.id (wr it) (hw it)]
  · rw [if_neg h]

theorem foldE_map {β : Type} (idOf : β → Nat) (tystr : String)
    (wr : Item → β → β) (hw : ∀ it b, idOf (wr it b) = idOf b) :
    ∀ (l : List Item) (bs : List β),
    (foldE idOf tystr wr bs l).map idOf = bs.map idOf := by
  intro l
  induction l with
  | nil => intro bs; rfl
  | cons it rest ih =>
    intro bs
    show (foldE idOf tystr wr (stepE idOf tystr wr bs it) rest).map idOf = _
    rw [ih, stepE_map idOf tystr wr hw]

theorem foldE_nil {β : Type} (idOf : β → Nat) (tystr : String)
    (wr : Item → β → β) :
    ∀ l : List Item, foldE idOf tystr wr [] l = [] := by
  intro l
  induction l with
  | nil => rfl
  | cons it rest ih =>
    show foldE idOf tystr wr (stepE idOf tystr wr [] it) rest = []
    have : stepE idOf tystr wr [] it = [] := by
      unfold stepE
      split <;> rfl
    rw [this, ih]

/-- Whether an entry targets the entity with identifier `i`. -/
def hitsE (tystr : String) (i : Nat) (it : Item) : Bool :=
  decide (it.type = tystr ∧ it.id = i)

theorem foldE_cons {β : Type} (idOf : β → Nat) (tystr : String)
    (wr : Item → β → β) (hw : ∀ it b, idOf (wr it b) = idOf b) :
    ∀ (l : List Item) (b : β) (rest : List β),
    foldE idOf tystr wr (b :: rest) l =
      applyWritesE wr b (l.filter (hitsE tystr (idOf b))) ::
      foldE idOf tystr wr rest (l.filter (fun it => ! hitsE tystr (idOf b) it)) := by
  intro l
  induction l with
  | nil => intro b rest; rfl
  | cons it l' ih =>
    intro b rest
    show foldE idOf tystr wr (stepE idOf tystr wr (b :: rest) it) l' = _
    by_cases hhit : it.type = tystr ∧ it.id = idOf b
    · have hfilter : hitsE tystr (idOf b) it = true := by
        unfold hitsE; exact decide_eq_true hhit
      have hstep : stepE idOf tystr wr (b :: rest) it = wr it b :: rest := by
        unfold stepE
        rw [if_pos hhit.1, updateFirstE_cons, if_pos hhit.2.symm]
      rw [hstep, ih (wr it b) rest, hw it b]
      simp only [List.filter_cons, hfilter, Bool.not_true, cond_true]
      rfl
    · have hfilter : hitsE tystr (idOf b) it = false := by
        unfold hitsE; exact decide_eq_false hhit
      have hstep : stepE idOf tystr wr (b :: rest) it =
          b :: stepE idOf tystr wr rest it := by
        unfold stepE
        by_cases hty : it.type = tystr
        · have hid : ¬ idOf b = it.id := by
            intro h
            exact hhit ⟨hty, h.symm⟩
          rw [if_pos hty, if_pos hty, updateFirstE_cons, if_neg hid]
        · rw [if_neg hty, if_neg hty]
      rw [hstep, ih b (stepE idOf tystr wr rest it)]
      simp only [List.filter_cons, hfilter, Bool.not_false, cond_false, cond_true]
      rfl

theorem applyWritesE_id {β : Type} (idOf : β → Nat) (wr : Item → β → β)
    (hw : ∀ it b, idOf (wr it b) = idOf b) :
    ∀ (ws : List Item) (b : β), idOf (applyWritesE wr b ws) = idOf b := by
  intro ws
  induction ws with
  | nil => intro b; rfl
  | cons it ws ih =>
    intro b
    show idOf (applyWritesE wr (wr it b) ws) = idOf b
    rw [ih (wr it b), hw it b]

theorem foldE_idem {β : Type} (idOf : β → Nat) (tystr : String)
    (wr : Item → β → β) (hw : ∀ it b, idOf (wr it b) = idOf b)
    (hidem : ∀ (b : β) (ws : List Item),
      applyWritesE wr (applyWritesE wr b ws) ws = applyWritesE wr b ws) :
    ∀ (bs : List β) (l : List Item),
    foldE idOf tystr wr (foldE idOf tystr wr bs l) l = foldE idOf tystr wr bs l := by
  intro bs
  induction bs with
  | nil =>
    intro l
    rw [foldE_nil, foldE_nil]
  | cons b rest ih =>
    intro l
    rw [foldE_cons idOf tystr wr hw l b rest,
        foldE_cons idOf tystr wr hw l _ _,
        applyWritesE_id idOf wr hw, hidem, ih]

end Availability

namespace Availability

/-! ### Instantiation for units and lessons -/

theorem set_item_fields_unit_id (it : Item) (u : Unit) :
    (set_item_fields_unit it u).unit_id = u.unit_id := rfl

theorem set_item_fields_lesson_id (it : Item) (l : Lesson) :
    (set_item_fields_lesson it l).lesson_id = l.lesson_id := rfl

theorem applyWrites_unit_spec :
    ∀ (ws : List Item) (u : Unit),
    applyWritesE set_item_fields_unit u ws =
      { u with
        availability := write_fold Item.availability u.availability ws,
        shown_when_unavailable :=
          write_fold Item.shown_when_unavailable u.shown_when_unavailable ws } := by
  intro ws
  induction ws with
  | nil => intro u; cases u; rfl
  | cons it ws ih =>
    intro u
    show applyWritesE set_item_fields_unit (set_item_fields_unit it u) ws = _
    rw [ih (set_item_fields_unit it u)]
    cases u
    cases hA : it.availability <;> cases hS : it.shown_when_unavailable <;>
      simp [set_item_fields_unit, write_fold, hA, hS]

theorem applyWrites_lesson_spec :
    ∀ (ws : List Item) (l : Lesson),
    applyWritesE set_item_fields_lesson l ws =
      { l with
        availability := write_fold Item.availability l.availability ws,
        shown_when_unavailable :=
          write_fold Item.shown_when_unavailable l.shown_when_unavailable ws } := by
  intro ws
  induction ws with
  | nil => intro l; cases l; rfl
  | cons it ws ih =>
    intro l
    show applyWritesE set_item_fields_lesson (set_item_fields_lesson it l) ws = _
    rw [ih (set_item_fields_lesson it l)]
    cases l
    cases hA : it.availability <;> cases hS : it.shown_when_unavailable <;>
      simp [set_item_fields_lesson, write_fold, hA, hS]

theorem applyWrites_unit_idem (u : Unit) (ws : List Item) :
    applyWritesE set_item_fields_unit
      (applyWritesE set_item_fields_unit u ws) ws =
    applyWritesE set_item_fields_unit u ws := by
  rw [applyWrites_unit_spec, applyWrites_unit_spec]
  simp [write_fold_idem]

theorem applyWrites_lesson_idem (l : Lesson) (ws : List Item) :
    applyWritesE set_item_fields_lesson
      (applyWritesE set_item_fields_lesson l ws) ws =
    applyWritesE set_item_fields_lesson l ws := by
  rw [applyWrites_lesson_spec, applyWrites_lesson_spec]
  simp [write_fold_idem]

/-- The element-settings loop's effect on the course's unit list. -/
def foldU (us : List Unit) (l : List Item) : List Unit :=
  foldE Unit.unit_id "unit" set_item_fields_unit us l

/-- The element-settings loop's effect on the course's lesson list. -/
def foldL (ls : List Lesson) (l : List Item) : List Lesson :=
  foldE Lesson.lesson_id "lesson" set_item_fields_lesson ls l

theorem foldU_idem (us : List Unit) (l : List Item) :
    foldU (foldU us l) l = foldU us l :=
  foldE_idem Unit.unit_id "unit" set_item_fields_unit
    (fun it u => set_item_fields_unit_id it u)
    applyWrites_unit_idem us l

theorem foldL_idem (ls : List Lesson) (l : List Item) :
    foldL (foldL ls l) l = foldL ls l :=
  foldE_idem Lesson.lesson_id "lesson" set_item_fields_lesson
    (fun it l' => set_item_fields_lesson_id it l')
    applyWrites_lesson_idem ls l

/-! ### The loop as the pair of folds -/

theorem applyItem_eq_ok (c : Course) (it : Item) (h : wt it) :
    applyItem c it = Except.ok
      ⟨foldE Unit.unit_id "unit" set_item_fields_unit c.units [it],
       foldE Lesson.lesson_id "lesson" set_item_fields_lesson c.lessons [it]⟩ := by
  have hu1 : foldE Unit.unit_id "unit" set_item_fields_unit c.units [it] =
      stepE Unit.unit_id "unit" set_item_fields_unit c.units it := rfl
  have hl1 : foldE Lesson.lesson_id "lesson" set_item_fields_lesson c.lessons [it] =
      stepE Lesson.lesson_id "lesson" set_item_fields_lesson c.lessons it := rfl
  rw [hu1, hl1]
  unfold applyItem stepE
  cases h with
  | inl h =>
    have hne : it.type ≠ "lesson" := by rw [h]; decide
    rw [if_pos h, if_pos h, if_neg hne]
    cases hfind : c.find_unit_by_id it.id with
    | some u =>
      cases c
      rfl
    | none =>
      have hnone : ∀ u ∈ c.units, u.unit_id ≠ it.id := by
        intro u hu
        have := List.find?_eq_none.mp hfind u hu
        simpa using this
      rw [updateFirstE_no_match Unit.unit_id it.id _ c.units hnone]
  | inr h =>
    have hne : it.type ≠ "unit" := by rw [h]; decide
    rw [if_neg hne, if_pos h, if_neg hne, if_pos h]
    cases hfind : c.find_lesson_by_id it.id with
    | some l =>
      cases c
      rfl
    | none =>
      have hnone : ∀ l ∈ c.lessons, l.lesson_id ≠ it.id := by
        intro l hl
        have := List.find?_eq_none.mp hfind l hl
        simpa using this
      rw [updateFirstE_no_match Lesson.lesson_id it.id _ c.lessons hnone]

theorem applyItems_eq_ok (l : List Item) :
    ∀ c : Course, (∀ it ∈ l, wt it) →
    applyItems c l = Except.ok ⟨foldU c.units l, foldL c.lessons l⟩ := by
  induction l with
  | nil =>
    intro c _
    cases c
    rfl
  | cons it rest ih =>
    intro c h
    have hit := h it (List.mem_cons_self it rest)
    have hstep := applyItem_eq_ok c it hit
    show (match applyItem c it with
      | Except.ok c2 => applyItems c2 rest
      | Except.error e => Except.error e) = _
    rw [hstep]
    show applyItems _ rest = _
    rw [ih _ (fun x hx => h x (List.mem_cons_of_mem it hx))]
    rfl


/-! ### Projections of `put`'s final store -/

theorem Store.ext3 (x y : Store) (h1 : x.settings = y.settings)
    (h2 : x.course = y.course)
    (h3 : x.course_availability = y.course_availability) : x = y := by
  cases x; cases y
  simp only at h1 h2 h3
  rw [h1, h2, h3]

theorem Course.ext2 (x y : Course) (h1 : x.units = y.units)
    (h2 : x.lessons = y.lessons) : x = y := by
  cases x; cases y
  simp only at h1 h2
  rw [h1, h2]

/-- The course-availability value left by the setter step, as a function of
the previous value and the payload. -/
def caval (a : String) (p : Payload) : String :=
  match pget p.course_availability with
  | some s => if s = "" then a else s
  | none => a

theorem ca_apply_ca (x : Store) (p : Payload) :
    (ca_apply x p).course_availability = caval x.course_availability p := by
  unfold ca_apply caval
  cases pget p.course_availability with
  | none => rfl
  | some s => by_cases h : s = "" <;> simp [h]

theorem caval_idem (a : String) (p : Payload) :
    caval (caval a p) p = caval a p := by
  unfold caval
  cases pget p.course_availability with
  | none => rfl
  | some s => by_cases h : s = "" <;> simp [h]

theorem merge_settings_idem (s : Settings) (p : Payload) :
    merge_settings (merge_settings s p) p = merge_settings s p := by
  unfold merge_settings
  cases hw : pget p.whitelist <;> cases hs : pget p.show_lessons_in_syllabus <;>
    simp

theorem put_ca_proj (db : Store) (p : Payload) :
    (put db p).store.course_availability = caval db.course_availability p := by
  unfold put
  cases h : applyItems
      (ca_apply { db with settings := merge_settings db.settings p } p).course
      p.element_settings <;>
    simp [h, ca_apply_ca]

theorem put_course_ok (db : Store) (p : Payload)
    (hwt : ∀ it ∈ p.element_settings, wt it) :
    (put db p).store.course =
      ⟨foldU db.course.units p.element_settings,
       foldL db.course.lessons p.element_settings⟩ ∧
    (put db p).error = none := by
  have hstep : applyItems
      (ca_apply { db with settings := merge_settings db.settings p } p).course
      p.element_settings =
      Except.ok ⟨foldU db.course.units p.element_settings,
                 foldL db.course.lessons p.element_settings⟩ := by
    rw [applyItems_eq_ok p.element_settings _ hwt, ca_apply_course]
  unfold put
  simp [hstep]

theorem put_course_err (db : Store) (p : Payload)
    (hbad : ∃ it ∈ p.element_settings, ¬ wt it) :
    (put db p).store.course = db.course := by
  obtain ⟨msg, hmsg⟩ := applyItems_eq_error p.element_settings
    (ca_apply { db with settings := merge_settings db.settings p } p).course hbad
  simp only [ca_apply_course] at hmsg
  unfold put
  simp [hmsg, ca_apply_course]

/-! ### Claim C6 -/

/-- C6: the write's merge is idempotent — applying the same payload twice
in succession yields the same final persistent state (scalar settings,
course-wide availability policy, and unit/lesson tree) as applying it
once. -/
theorem claim_C6 (db : Store) (p : Payload) :
    (put (put db p).store p).store = (put db p).store := by
  apply Store.ext3
  · rw [(put_store_settings _ p).2, (put_store_settings db p).2,
        merge_settings_idem]
  · by_cases hbad : ∃ it ∈ p.element_settings, ¬ wt it
    · rw [put_course_err _ p hbad]
    · push_neg at hbad
      have hwt : ∀ it ∈ p.element_settings, wt it := hbad
      rw [(put_course_ok _ p hwt).1]
      apply Course.ext2
      · show foldU (put db p).store.course.units p.element_settings =
          (put db p).store.course.units
        rw [(put_course_ok db p hwt).1]
        exact foldU_idem db.course.units p.element_settings
      · show foldL (put db p).store.course.lessons p.element_settings =
          (put db p).store.course.lessons
        rw [(put_course_ok db p hwt).1]
        exact foldL_idem db.course.lessons p.element_settings
  · rw [put_ca_proj _ p, put_ca_proj db p, caval_idem]

/-! ### Entries whose id resolves to nothing are skipped -/

theorem find_unit_none (c : Course) (i : Nat)
    (h : c.find_unit_by_id i = none) : ∀ u ∈ c.units, u.unit_id ≠ i := by
  intro u hu
  have := List.find?_eq_none.mp h u hu
  simpa using this

theorem find_lesson_none (c : Course) (i : Nat)
    (h : c.find_lesson_by_id i = none) : ∀ l ∈ c.lessons, l.lesson_id ≠ i := by
  intro l hl
  have := List.find?_eq_none.mp h l hl
  simpa using this

theorem foldE_id_notin {β : Type} (idOf : β → Nat) (tystr : String)
    (wr : Item → β → β) (hw : ∀ it b, idOf (wr it b) = idOf b)
    (bs : List β) (l : List Item) (i : Nat)
    (h : ∀ b ∈ bs, idOf b ≠ i) :
    ∀ b ∈ foldE idOf tystr wr bs l, idOf b ≠ i := by
  intro b hb
  have hmem : idOf b ∈ (foldE idOf tystr wr bs l).map idOf :=
    List.mem_map_of_mem idOf hb
  rw [foldE_map idOf tystr wr hw] at hmem
  obtain ⟨b0, hb0, heq⟩ := List.mem_map.mp hmem
  rw [← heq]
  exact h b0 hb0

theorem stepE_skip {β : Type} (idOf : β → Nat) (tystr : String)
    (wr : Item → β → β) (bs : List β) (e : Item)
    (h : e.type = tystr → ∀ b ∈ bs, idOf b ≠ e.id) :
    stepE idOf tystr wr bs e = bs := by
  unfold stepE
  by_cases hty : e.type = tystr
  · rw [if_pos hty, updateFirstE_no_match idOf e.id (wr e) bs (h hty)]
  · rw [if_neg hty]

theorem foldE_middle_skip {β : Type} (idOf : β → Nat) (tystr : String)
    (wr : Item → β → β) (bs : List β) (l1 l2 : List Item) (e : Item)
    (h : stepE idOf tystr wr (foldE idOf tystr wr bs l1) e =
         foldE idOf tystr wr bs l1) :
    foldE idOf tystr wr bs (l1 ++ e :: l2) = foldE idOf tystr wr bs (l1 ++ l2) := by
  unfold foldE at *
  rw [List.foldl_append, List.foldl_append, List.foldl_cons, h]

/-! ### Claim C4 -/

/-- C4: an element-settings entry with a well-formed type (`"unit"` or
`"lesson"`) whose id resolves to no unit or lesson of the course is
tolerated: the write completes without error, the entry changes nothing —
the final persistent state is exactly the one the same payload without
that entry produces — and the remaining entries are still processed. -/
theorem claim_C4 (db : Store) (p : Payload) (e : Item) (l1 l2 : List Item)
    (hsplit : p.element_settings = l1 ++ e :: l2)
    (hwt : ∀ it ∈ p.element_settings, wt it)
    (hresU : e.type = "unit" → db.course.find_unit_by_id e.id = none)
    (hresL : e.type = "lesson" → db.course.find_lesson_by_id e.id = none) :
    (put db p).error = none ∧
    (put db p).store = (put db { p with element_settings := l1 ++ l2 }).store := by
  have hwt2 : ∀ it ∈ (({ p with element_settings := l1 ++ l2 } : Payload)).element_settings,
      wt it := by
    intro it hit
    apply hwt
    rw [hsplit]
    simp only at hit
    rw [List.mem_append] at hit
    rw [List.mem_append]
    cases hit with
    | inl h => exact Or.inl h
    | inr h => exact Or.inr (List.mem_cons_of_mem e h)
  refine ⟨(put_course_ok db p hwt).2, ?_⟩
  apply Store.ext3
  · rw [(put_store_settings db p).2,
        (put_store_settings db { p with element_settings := l1 ++ l2 }).2]
    rfl
  · rw [(put_course_ok db p hwt).1,
        (put_course_ok db { p with element_settings := l1 ++ l2 } hwt2).1]
    simp only [hsplit]
    apply Course.ext2
    · show foldU db.course.units (l1 ++ e :: l2) = foldU db.course.units (l1 ++ l2)
      apply foldE_middle_skip
      apply stepE_skip
      intro hty
      exact foldE_id_notin Unit.unit_id "unit" set_item_fields_unit
        set_item_fields_unit_id db.course.units l1 e.id
        (find_unit_none db.course e.id (hresU hty))
    · show foldL db.course.lessons (l1 ++ e :: l2) = foldL db.course.lessons (l1 ++ l2)
      apply foldE_middle_skip
      apply stepE_skip
      intro hty
      exact foldE_id_notin Lesson.lesson_id "lesson" set_item_fields_lesson
        set_item_fields_lesson_id db.course.lessons l1 e.id
        (find_lesson_none db.course e.id (hresL hty))
  · rw [put_ca_proj db p, put_ca_proj db { p with element_settings := l1 ++ l2 }]
    rfl

/-- A payload whose only entry targets a unit id absent from
`c1_store`'s course. -/
def c4_payload : Payload :=
  { whitelist := none, show_lessons_in_syllabus := none,
    course_availability := none,
    element_settings := [⟨"unit", 99, some "public", none⟩] }

theorem claim_C4_witness :
    (put c1_store c4_payload).error = none ∧
    (put c1_store c4_payload).store =
      (put c1_store { c4_payload with element_settings := [] ++ [] }).store :=
  claim_C4 c1_store c4_payload ⟨"unit", 99, some "public", none⟩ [] []
    rfl (by decide) (fun _ => rfl) (by decide)

/-! ### The flattener: resolvable references -/

/-- A pre- or post-assessment reference is resolvable in the course. -/
def ref_ok (c : Course) : Option Nat → Bool
  | none => true
  | some p => (c.find_unit_by_id p).isSome

/-- Every pre/post assessment reference of every unit resolves to an
existing unit of the course. -/
def refs_resolve (c : Course) : Prop :=
  ∀ u ∈ c.units,
    ref_ok c u.pre_assessment = true ∧ ref_ok c u.post_assessment = true

instance refs_resolve.decidable (c : Course) : Decidable (refs_resolve c) := by
  unfold refs_resolve
  infer_instance

theorem assessment_ref_isSome (c : Course) (r : Option Nat)
    (h : ref_ok c r = true) : ∃ es, assessment_ref c r = some es := by
  cases r with
  | none => exact ⟨[], rfl⟩
  | some p =>
    unfold ref_ok at h
    obtain ⟨a, ha⟩ := Option.isSome_iff_exists.mp h
    exact ⟨[add_unit a true], by simp [assessment_ref, ha]⟩

theorem unit_block_isSome (c : Course) (u : Unit)
    (h1 : ref_ok c u.pre_assessment = true)
    (h2 : ref_ok c u.post_assessment = true) :
    ∃ bl, unit_block c u = some bl := by
  unfold unit_block
  by_cases hskip : (u.is_assessment && (c.get_parent_unit u.unit_id).isSome) = true
  · rw [if_pos hskip]
    exact ⟨[], rfl⟩
  · rw [if_neg hskip]
    by_cases hu : u.is_unit = true
    · rw [if_pos hu]
      obtain ⟨pre, hpre⟩ := assessment_ref_isSome c u.pre_assessment h1
      obtain ⟨post, hpost⟩ := assessment_ref_isSome c u.post_assessment h2
      rw [hpre, hpost]
      exact ⟨_, rfl⟩
    · rw [if_neg hu]
      exact ⟨[add_unit u false], rfl⟩

theorem traverse_go_isSome (c : Course) (h : refs_resolve c) :
    ∀ us : List Unit, (∀ u ∈ us, u ∈ c.units) →
    ∃ es, traverse_go c us = some es := by
  intro us
  induction us with
  | nil => intro _; exact ⟨[], rfl⟩
  | cons u rest ih =>
    intro hsub
    have hu := h u (hsub u (List.mem_cons_self u rest))
    obtain ⟨bl, hbl⟩ := unit_block_isSome c u hu.1 hu.2
    obtain ⟨tl, htl⟩ := ih (fun x hx => hsub x (List.mem_cons_of_mem u hx))
    refine ⟨bl ++ tl, ?_⟩
    unfold traverse_go
    rw [hbl, htl]

/-- A course with a dangling pre-assessment reference: unit 1 refers to a
pre-assessment with id 99 which does not exist. -/
def dangling_course : Course :=
  { units := [⟨1, "U", "course", false, UnitKind.unit, some 99, none⟩],
    lessons := [] }

/-- A small well-formed course: a plain unit with resolvable pre- and
post-assessment references and one lesson. -/
def c10_course : Course :=
  { units := [⟨1, "U1", "course", false, UnitKind.unit, some 2, some 3⟩,
              ⟨2, "Pre", "course", false, UnitKind.assessment, none, none⟩,
              ⟨3, "Post", "private", true, UnitKind.assessment, none, none⟩],
    lessons := [⟨10, 1, "L1", "course", false⟩] }

/-! ### Claim C10 -/

/-- C10: the flattener is well-defined exactly under the precondition that
every pre/post assessment reference resolves: when all references resolve,
`traverse_course` produces a result, and on a course with a dangling
reference it fails (the unit lookup returns nothing and the attribute
access on the missing unit errors) instead of skipping the reference. -/
theorem claim_C10 :
    (∀ c : Course, refs_resolve c → (traverse_course c).isSome = true) ∧
    traverse_course dangling_course = none := by
  constructor
  · intro c h
    obtain ⟨es, hes⟩ := traverse_go_isSome c h c.units (fun _ hx => hx)
    unfold traverse_course
    rw [hes]
    rfl
  · rfl

theorem claim_C10_witness :
    (traverse_course c10_course).isSome = true ∧
    traverse_course dangling_course = none :=
  ⟨claim_C10.1 c10_course (by decide), claim_C10.2⟩

/-! ### The flattener on courses without assessment references -/

/-- The contribution of one unit to the flattened list when it carries no
pre/post assessment references: the unit itself, then (for a plain unit)
its lessons. -/
def unit_block_plain (c : Course) (u : Unit) : List Element :=
  add_unit u false ::
    (if u.is_unit then (c.get_lessons u.unit_id).map add_lesson else [])

theorem get_parent_none (c : Course)
    (hrefs : ∀ u ∈ c.units, u.pre_assessment = none ∧ u.post_assessment = none)
    (uid : Nat) : c.get_parent_unit uid = none := by
  unfold Course.get_parent_unit
  apply List.find?_eq_none.mpr
  intro u hu
  rw [(hrefs u hu).1, (hrefs u hu).2]
  simp

theorem unit_block_no_refs (c : Course)
    (hrefs : ∀ u ∈ c.units, u.pre_assessment = none ∧ u.post_assessment = none)
    (u : Unit) (hu : u ∈ c.units) :
    unit_block c u = some (unit_block_plain c u) := by
  unfold unit_block unit_block_plain
  rw [get_parent_none c hrefs u.unit_id]
  simp only [Option.isSome_none, Bool.and_false, Bool.false_eq_true, if_false]
  rw [(hrefs u hu).1, (hrefs u hu).2]
  by_cases h : u.is_unit = true
  · rw [if_pos h, if_pos h]
    show some (add_unit u false :: ([] ++ _ ++ [])) = _
    simp
  · rw [if_neg h, if_neg h]

theorem traverse_go_no_refs (c : Course)
    (hrefs : ∀ u ∈ c.units, u.pre_assessment = none ∧ u.post_assessment = none) :
    ∀ us : List Unit, (∀ u ∈ us, u ∈ c.units) →
    traverse_go c us = some ((us.map (unit_block_plain c)).flatten) := by
  intro us
  induction us with
  | nil => intro _; rfl
  | cons u rest ih =>
    intro hsub
    have hbl := unit_block_no_refs c hrefs u (hsub u (List.mem_cons_self u rest))
    have htl := ih (fun x hx => hsub x (List.mem_cons_of_mem u hx))
    unfold traverse_go
    rw [hbl, htl]
    simp

/-! ### Counting lemmas -/

theorem sum_map_add {α : Type} (f g : α → Nat) :
    ∀ us : List α, (us.map (fun x => f x + g x)).sum = (us.map f).sum + (us.map g).sum := by
  intro us
  induction us with
  | nil => rfl
  | cons x rest ih =>
    simp only [List.map_cons, List.sum_cons, ih]
    omega

theorem sum_map_one {α : Type} :
    ∀ us : List α, (us.map (fun _ => 1)).sum = us.length := by
  intro us
  induction us with
  | nil => rfl
  | cons x rest ih =>
    simp only [List.map_cons, List.sum_cons, ih, List.length_cons]
    omega

theorem one_hot (x : Nat) :
    ∀ us : List Unit, (us.map Unit.unit_id).Nodup →
    ∀ u0 ∈ us, u0.unit_id = x → u0.is_unit = true →
    (us.map (fun u => if u.is_unit = true ∧ x = u.unit_id then 1 else 0)).sum = 1 := by
  intro us
  induction us with
  | nil => intro _ u0 h; cases h
  | cons v rest ih =>
    intro hn u0 hmem hx hunit
    have hn0 : v.unit_id ∉ rest.map Unit.unit_id ∧ (rest.map Unit.unit_id).Nodup := by
      rw [List.map_cons, List.nodup_cons] at hn
      exact hn
    cases hmem with
    | head =>
      have hv : (if v.is_unit = true ∧ x = v.unit_id then 1 else 0) = 1 := by
        rw [if_pos ⟨hunit, hx.symm⟩]
      have hrest : (rest.map (fun u => if u.is_unit = true ∧ x = u.unit_id then 1 else 0)).sum = 0 := by
        apply List.sum_eq_zero
        intro y hy
        obtain ⟨u, hu, hyeq⟩ := List.mem_map.mp hy
        rw [← hyeq]
        rw [if_neg]
        intro hcond
        apply hn0.1
        rw [hx, hcond.2]
        exact List.mem_map_of_mem Unit.unit_id hu
      simp only [List.map_cons, List.sum_cons, hv, hrest]
    | tail _ hmem' =>
      have hv : (if v.is_unit = true ∧ x = v.unit_id then 1 else 0) = 0 := by
        rw [if_neg]
        intro hcond
        apply hn0.1
        rw [← hcond.2, ← hx]
        exact List.mem_map_of_mem Unit.unit_id hmem'
      rw [List.map_cons, List.sum_cons, hv,
          ih hn0.2 u0 hmem' hx hunit]

theorem sum_map_succ {α : Type} (f : α → Nat) :
    ∀ us : List α, (us.map (fun x => f x + 1)).sum = (us.map f).sum + us.length := by
  intro us
  induction us with
  | nil => rfl
  | cons x rest ih =>
    simp only [List.map_cons, List.sum_cons, ih, List.length_cons]
    omega

theorem count_lemma (us : List Unit) :
    ∀ ls : List Lesson, (us.map Unit.unit_id).Nodup →
    (∀ l ∈ ls, ∃ u ∈ us, u.unit_id = l.unit_id ∧ u.is_unit = true) →
    (us.map (fun u =>
      if u.is_unit = true then ls.countP (fun x => x.unit_id == u.unit_id)
      else 0)).sum = ls.length := by
  intro ls
  induction ls with
  | nil =>
    intro _ _
    apply List.sum_eq_zero
    intro y hy
    obtain ⟨u, _, hyeq⟩ := List.mem_map.mp hy
    rw [← hyeq]
    simp
  | cons l ls ih =>
    intro hn hl
    have hfun : (fun u : Unit =>
        if u.is_unit = true then (l :: ls).countP (fun x => x.unit_id == u.unit_id)
        else 0) =
        fun u =>
          (if u.is_unit = true then ls.countP (fun x => x.unit_id == u.unit_id)
           else 0) +
          (if u.is_unit = true ∧ l.unit_id = u.unit_id then 1 else 0) := by
      funext u
      rw [List.countP_cons]
      by_cases h1 : u.is_unit = true
      · by_cases h2 : l.unit_id = u.unit_id
        · have hb : (l.unit_id == u.unit_id) = true := by simpa using h2
          simp [h1, h2, hb]
        · have hb : (l.unit_id == u.unit_id) = false := by simpa using h2
          simp [h1, h2, hb]
      · simp [h1]
    rw [hfun, sum_map_add]
    obtain ⟨u0, hu0, heq, hiu⟩ := hl l (List.mem_cons_self l ls)
    rw [ih hn (fun x hx => hl x (List.mem_cons_of_mem l hx)),
        one_hot l.unit_id us hn u0 hu0 heq hiu, List.length_cons]

theorem unit_block_plain_length (c : Course) (u : Unit) :
    (unit_block_plain c u).length =
      (if u.is_unit = true then
        c.lessons.countP (fun x => x.unit_id == u.unit_id)
       else 0) + 1 := by
  unfold unit_block_plain Course.get_lessons
  by_cases h : u.is_unit = true
  · simp [h, List.countP_eq_length_filter]
  · simp [h]

/-! ### Claim C7 -/

/-- C7: on a course in which no unit carries a pre- or post-assessment
reference, the flattener succeeds; its output is the units in stored
authoring order, each followed by its lessons in stored order; its length
is the number of units plus the number of lessons; and every unit element
has `indent = false` while every lesson element has `indent = true`. -/
theorem claim_C7 (c : Course)
    (hn : (c.units.map Unit.unit_id).Nodup)
    (hrefs : ∀ u ∈ c.units, u.pre_assessment = none ∧ u.post_assessment = none)
    (hl : ∀ l ∈ c.lessons, ∃ u ∈ c.units, u.unit_id = l.unit_id ∧ u.is_unit = true) :
    ∃ es, traverse_course c = some es ∧
      es = (c.units.map (unit_block_plain c)).flatten ∧
      es.length = c.units.length + c.lessons.length ∧
      ∀ e ∈ es, (e.type = "unit" → e.indent = false) ∧
                (e.type = "lesson" → e.indent = true) := by
  refine ⟨(c.units.map (unit_block_plain c)).flatten, ?_, rfl, ?_, ?_⟩
  · exact traverse_go_no_refs c hrefs c.units (fun _ hx => hx)
  · rw [List.length_flatten, List.map_map]
    have hcomp : (List.length ∘ unit_block_plain c) =
        fun u => (if u.is_unit = true then
          c.lessons.countP (fun x => x.unit_id == u.unit_id)
         else 0) + 1 := by
      funext u
      exact unit_block_plain_length c u
    rw [hcomp, sum_map_succ, count_lemma c.units c.lessons hn hl]
    omega
  · intro e he
    rw [List.mem_flatten] at he
    obtain ⟨bl, hbl, hebl⟩ := he
    obtain ⟨u, _, hueq⟩ := List.mem_map.mp hbl
    rw [← hueq] at hebl
    unfold unit_block_plain at hebl
    cases hebl with
    | head =>
      constructor
      · intro _; rfl
      · intro h
        simp [add_unit] at h
    | tail _ hmem =>
      by_cases hu : u.is_unit = true
      · rw [if_pos hu] at hmem
        obtain ⟨l0, _, hleq⟩ := List.mem_map.mp hmem
        rw [← hleq]
        constructor
        · intro h
          simp [add_lesson] at h
        · intro _; rfl
      · rw [if_neg hu] at hmem
        cases hmem

/-- A concrete no-references course for instantiating C7. -/
def c7_course : Course :=
  { units := [⟨1, "A", "course", false, UnitKind.unit, none, none⟩,
              ⟨2, "B", "public", true, UnitKind.assessment, none, none⟩],
    lessons := [⟨10, 1, "L1", "course", false⟩,
                ⟨11, 1, "L2", "private", true⟩] }

theorem claim_C7_witness :
    ∃ es, traverse_course c7_course = some es ∧
      es = (c7_course.units.map (unit_block_plain c7_course)).flatten ∧
      es.length = c7_course.units.length + c7_course.lessons.length ∧
      ∀ e ∈ es, (e.type = "unit" → e.indent = false) ∧
                (e.type = "lesson" → e.indent = true) :=
  claim_C7 c7_course (by decide) (by decide) (by decide)

/-! ### Decomposition of the flattener around one unit -/

theorem traverse_go_append (c : Course) :
    ∀ xs ys : List Unit,
    traverse_go c (xs ++ ys) =
      match traverse_go c xs, traverse_go c ys with
      | some a, some b => some (a ++ b)
      | _, _ => none := by
  intro xs
  induction xs with
  | nil =>
    intro ys
    cases hy : traverse_go c ys <;> simp [traverse_go, hy]
  | cons u xs ih =>
    intro ys
    show (match unit_block c u, traverse_go c (xs ++ ys) with
      | some bl, some tl => some (bl ++ tl)
      | _, _ => none) = _
    rw [ih ys]
    cases hb : unit_block c u <;> cases hx : traverse_go c xs <;>
      cases hy : traverse_go c ys <;> simp [traverse_go, hb, hx, hy]

theorem find_unit_found (c : Course) (i : Nat) (a : Unit)
    (h : c.find_unit_by_id i = some a) : a ∈ c.units ∧ a.unit_id = i := by
  refine ⟨List.mem_of_find?_eq_some h, ?_⟩
  have := List.find?_some h
  simpa using this

theorem parent_isSome (c : Course) (u : Unit) (hu : u ∈ c.units) (p : Nat)
    (h : u.pre_assessment = some p ∨ u.post_assessment = some p) :
    (c.get_parent_unit p).isSome = true := by
  unfold Course.get_parent_unit
  rw [List.find?_isSome]
  refine ⟨u, hu, ?_⟩
  cases h with
  | inl h => simp [h]
  | inr h => simp [h]

theorem unit_block_skip (c : Course) (v : Unit)
    (hk : v.kind = UnitKind.assessment)
    (hp : (c.get_parent_unit v.unit_id).isSome = true) :
    unit_block c v = some [] := by
  unfold unit_block
  rw [if_pos]
  rw [Bool.and_eq_true]
  refine ⟨?_, hp⟩
  unfold Unit.is_assessment
  rw [hk]

theorem unit_block_full (c : Course) (u a b : Unit) (p q : Nat)
    (hk : u.kind = UnitKind.unit)
    (hpre : u.pre_assessment = some p) (hpost : u.post_assessment = some q)
    (ha : c.find_unit_by_id p = some a) (hb : c.find_unit_by_id q = some b) :
    unit_block c u = some (add_unit u false :: add_unit a true ::
      ((c.get_lessons u.unit_id).map add_lesson ++ [add_unit b true])) := by
  unfold unit_block
  have hassess : u.is_assessment = false := by
    unfold Unit.is_assessment
    rw [hk]
  have hunit : u.is_unit = true := by
    unfold Unit.is_unit
    rw [hk]
  rw [hassess]
  simp only [Bool.false_and, Bool.false_eq_true, if_false]
  rw [if_pos hunit, hpre, hpost]
  simp only [assessment_ref]
  rw [ha, hb]
  simp

theorem assessment_ref_elem (c : Course) (r : Option Nat) (lst : List Element)
    (h : assessment_ref c r = some lst) :
    ∀ e ∈ lst, ∃ w ∈ c.units, e = add_unit w true := by
  intro e he
  cases r with
  | none =>
    cases h
    cases he
  | some p =>
    simp only [assessment_ref] at h
    cases hf : c.find_unit_by_id p with
    | none => rw [hf] at h; cases h
    | some w =>
      rw [hf] at h
      cases h
      cases he with
      | head => exact ⟨w, (find_unit_found c p w hf).1, rfl⟩
      | tail _ h2 => cases h2

theorem unit_block_indent_false (c : Course) (v : Unit) (bl : List Element)
    (hbl : unit_block c v = some bl) :
    ∀ e ∈ bl, e.indent = false → e = add_unit v false := by
  intro e he hind
  unfold unit_block at hbl
  by_cases hskip : (v.is_assessment && (c.get_parent_unit v.unit_id).isSome) = true
  · rw [if_pos hskip] at hbl
    cases hbl
    cases he
  · rw [if_neg hskip] at hbl
    by_cases hv : v.is_unit = true
    · rw [if_pos hv] at hbl
      cases hp : assessment_ref c v.pre_assessment with
      | none => rw [hp] at hbl; cases hbl
      | some pre =>
        cases hq : assessment_ref c v.post_assessment with
        | none => rw [hp, hq] at hbl; cases hbl
        | some post =>
          rw [hp, hq] at hbl
          cases hbl
          cases he with
          | head => rfl
          | tail _ h2 =>
            exfalso
            have h2s : e ∈ pre ∨
                e ∈ List.map add_lesson (c.get_lessons v.unit_id) ∨ e ∈ post := by
              have hmem : e ∈ pre ++ List.map add_lesson (c.get_lessons v.unit_id)
                  ++ post := h2
              simpa [List.mem_append, or_assoc] using hmem
            rcases h2s with h3 | h4 | h5
            · obtain ⟨w, _, hw⟩ := assessment_ref_elem c _ pre hp e h3
              rw [hw] at hind
              cases hind
            · obtain ⟨l0, _, hl0⟩ := List.mem_map.mp h4
              rw [← hl0] at hind
              cases hind
            · obtain ⟨w, _, hw⟩ := assessment_ref_elem c _ post hq e h5
              rw [hw] at hind
              cases hind
    · rw [if_neg hv] at hbl
      cases hbl
      cases he with
      | head => rfl
      | tail _ h2 => cases h2

theorem traverse_mem (c : Course) :
    ∀ (us : List Unit) (es : List Element), traverse_go c us = some es →
    ∀ e ∈ es, ∃ v ∈ us, ∃ bl, unit_block c v = some bl ∧ e ∈ bl := by
  intro us
  induction us with
  | nil =>
    intro es hes e he
    cases hes
    cases he
  | cons u rest ih =>
    intro es hes e he
    unfold traverse_go at hes
    cases hb : unit_block c u with
    | none => rw [hb] at hes; cases hes
    | some bl =>
      cases ht : traverse_go c rest with
      | none => rw [hb, ht] at hes; cases hes
      | some tl =>
        rw [hb, ht] at hes
        cases hes
        rw [List.mem_append] at he
        cases he with
        | inl h1 => exact ⟨u, List.mem_cons_self u rest, bl, hb, h1⟩
        | inr h2 =>
          obtain ⟨v, hv, bl2, hbl2, hebl2⟩ := ih tl ht e h2
          exact ⟨v, List.mem_cons_of_mem u hv, bl2, hbl2, hebl2⟩

/-! ### Claim C2 -/

/-- C2: for a plain unit carrying both a pre- and a post-assessment
reference (to assessment units, under distinct unit ids), the flattener
emits, contiguously and in order: the unit with `indent = false`, the
pre-assessment with `indent = true`, the unit's lessons in stored order,
and the post-assessment with `indent = true`; and neither referenced
assessment appears anywhere in the output as a top-level
(`indent = false`) element. -/
theorem claim_C2 (c : Course) (u a b : Unit) (p q : Nat) (es : List Element)
    (hn : (c.units.map Unit.unit_id).Nodup)
    (hu : u ∈ c.units) (hk : u.kind = UnitKind.unit)
    (hpre : u.pre_assessment = some p) (hpost : u.post_assessment = some q)
    (ha : c.find_unit_by_id p = some a) (hb : c.find_unit_by_id q = some b)
    (hak : a.kind = UnitKind.assessment) (hbk : b.kind = UnitKind.assessment)
    (hes : traverse_course c = some es) :
    (∃ l1 l2, es = l1 ++ (add_unit u false :: add_unit a true ::
      ((c.get_lessons u.unit_id).map add_lesson ++ [add_unit b true])) ++ l2) ∧
    (∀ e ∈ es, e.indent = false → e.id ≠ a.unit_id ∧ e.id ≠ b.unit_id) := by
  have hamem := find_unit_found c p a ha
  have hbmem := find_unit_found c q b hb
  have hablock : unit_block c a = some [] :=
    unit_block_skip c a hak
      (by rw [hamem.2]; exact parent_isSome c u hu p (Or.inl hpre))
  have hbblock : unit_block c b = some [] :=
    unit_block_skip c b hbk
      (by rw [hbmem.2]; exact parent_isSome c u hu q (Or.inr hpost))
  have hrun := unit_block_full c u a b p q hk hpre hpost ha hb
  constructor
  · obtain ⟨s, t, hst⟩ := List.append_of_mem hu
    have htr : traverse_go c (s ++ u :: t) = some es := by
      rw [← hst]
      exact hes
    rw [traverse_go_append] at htr
    cases hs : traverse_go c s with
    | none => rw [hs] at htr; cases htr
    | some A =>
      rw [hs] at htr
      cases ht2 : traverse_go c (u :: t) with
      | none => rw [ht2] at htr; cases htr
      | some B =>
        rw [ht2] at htr
        cases htr
        unfold traverse_go at ht2
        rw [hrun] at ht2
        cases htt : traverse_go c t with
        | none => rw [htt] at ht2; cases ht2
        | some T =>
          rw [htt] at ht2
          cases ht2
          exact ⟨A, T, (List.append_assoc A _ T).symm⟩
  · intro e he hind
    obtain ⟨v, hv, bl, hbl, hebl⟩ := traverse_mem c c.units es hes e he
    have hev := unit_block_indent_false c v bl hbl e hebl hind
    have hide : e.id = v.unit_id := by rw [hev]; rfl
    constructor
    · intro hcontra
      have hva : v = a :=
        List.inj_on_of_nodup_map hn hv hamem.1 (by rw [← hide, hcontra])
      rw [hva, hablock] at hbl
      cases hbl
      cases hebl
    · intro hcontra
      have hvb : v = b :=
        List.inj_on_of_nodup_map hn hv hbmem.1 (by rw [← hide, hcontra])
      rw [hvb, hbblock] at hbl
      cases hbl
      cases hebl

/-- Concrete course for instantiating C2: a plain unit with pre- and
post-assessment references to two assessment units, and one lesson. -/
def c2_u1 : Unit := ⟨1, "U1", "course", false, UnitKind.unit, some 2, some 3⟩

def c2_a2 : Unit := ⟨2, "Pre", "course", false, UnitKind.assessment, none, none⟩

def c2_a3 : Unit := ⟨3, "Post", "private", true, UnitKind.assessment, none, none⟩

def c2_l1 : Lesson := ⟨10, 1, "L1", "course", false⟩

def c2_course : Course := ⟨[c2_u1, c2_a2, c2_a3], [c2_l1]⟩

def c2_es : List Element :=
  [add_unit c2_u1 false, add_unit c2_a2 true, add_lesson c2_l1,
   add_unit c2_a3 true]

theorem claim_C2_witness :
    (∃ l1 l2, c2_es = l1 ++ (add_unit c2_u1 false :: add_unit c2_a2 true ::
      ((c2_course.get_lessons c2_u1.unit_id).map add_lesson ++
        [add_unit c2_a3 true])) ++ l2) ∧
    (∀ e ∈ c2_es, e.indent = false →
      e.id ≠ c2_a2.unit_id ∧ e.id ≠ c2_a3.unit_id) :=
  claim_C2 c2_course c2_u1 c2_a2 c2_a3 2 3 c2_es (by decide) (by decide)
    rfl rfl rfl rfl rfl rfl rfl rfl

/-! ### Claim C3: round-trip through the merger -/

theorem find_unit_self (c : Course) (hn : (c.units.map Unit.unit_id).Nodup)
    (u : Unit) (hu : u ∈ c.units) : c.find_unit_by_id u.unit_id = some u := by
  have hsome : (c.units.find? (fun x => x.unit_id == u.unit_id)).isSome = true := by
    rw [List.find?_isSome]
    exact ⟨u, hu, by simp⟩
  obtain ⟨w, hw⟩ := Option.isSome_iff_exists.mp hsome
  have hww := find_unit_found c u.unit_id w hw
  have : w = u := List.inj_on_of_nodup_map hn hww.1 hu hww.2
  rw [← this] at hw ⊢
  exact hw

theorem find_lesson_found (c : Course) (i : Nat) (l : Lesson)
    (h : c.find_lesson_by_id i = some l) : l ∈ c.lessons ∧ l.lesson_id = i := by
  refine ⟨List.mem_of_find?_eq_some h, ?_⟩
  have := List.find?_some h
  simpa using this

theorem find_lesson_self (c : Course)
    (hln : (c.lessons.map Lesson.lesson_id).Nodup)
    (l : Lesson) (hl : l ∈ c.lessons) :
    c.find_lesson_by_id l.lesson_id = some l := by
  have hsome : (c.lessons.find? (fun x => x.lesson_id == l.lesson_id)).isSome = true := by
    rw [List.find?_isSome]
    exact ⟨l, hl, by simp⟩
  obtain ⟨w, hw⟩ := Option.isSome_iff_exists.mp hsome
  have hww := find_lesson_found c l.lesson_id w hw
  have : w = l := List.inj_on_of_nodup_map hln hww.1 hl hww.2
  rw [← this] at hw ⊢
  exact hw

theorem unit_block_mem_source (c : Course) (v : Unit) (bl : List Element)
    (hv : v ∈ c.units) (hbl : unit_block c v = some bl) :
    ∀ e ∈ bl, (∃ w ∈ c.units, ∃ i, e = add_unit w i) ∨
              (∃ l ∈ c.lessons, e = add_lesson l) := by
  intro e he
  unfold unit_block at hbl
  by_cases hskip : (v.is_assessment && (c.get_parent_unit v.unit_id).isSome) = true
  · rw [if_pos hskip] at hbl
    cases hbl
    cases he
  · rw [if_neg hskip] at hbl
    by_cases hvu : v.is_unit = true
    · rw [if_pos hvu] at hbl
      cases hp : assessment_ref c v.pre_assessment with
      | none => rw [hp] at hbl; cases hbl
      | some pre =>
        cases hq : assessment_ref c v.post_assessment with
        | none => rw [hp, hq] at hbl; cases hbl
        | some post =>
          rw [hp, hq] at hbl
          cases hbl
          cases he with
          | head => exact Or.inl ⟨v, hv, false, rfl⟩
          | tail _ h2 =>
            have h2s : e ∈ pre ∨
                e ∈ List.map add_lesson (c.get_lessons v.unit_id) ∨ e ∈ post := by
              have hmem : e ∈ pre ++ List.map add_lesson (c.get_lessons v.unit_id)
                  ++ post := h2
              simpa [List.mem_append, or_assoc] using hmem
            rcases h2s with h3 | h4 | h5
            · obtain ⟨w, hwmem, hw⟩ := assessment_ref_elem c _ pre hp e h3
              exact Or.inl ⟨w, hwmem, true, hw⟩
            · obtain ⟨l0, hl0mem, hl0⟩ := List.mem_map.mp h4
              refine Or.inr ⟨l0, ?_, hl0.symm⟩
              exact List.mem_of_mem_filter hl0mem
            · obtain ⟨w, hwmem, hw⟩ := assessment_ref_elem c _ post hq e h5
              exact Or.inl ⟨w, hwmem, true, hw⟩
    · rw [if_neg hvu] at hbl
      cases hbl
      cases he with
      | head => exact Or.inl ⟨v, hv, false, rfl⟩
      | tail _ h2 => cases h2

theorem set_self_unit (w : Unit) (i : Bool) :
    set_item_fields_unit (elem_to_item (add_unit w i)) w = w := by
  cases w
  rfl

theorem set_self_lesson (l : Lesson) :
    set_item_fields_lesson (elem_to_item (add_lesson l)) l = l := by
  cases l
  rfl

theorem elem_to_item_unit_type (w : Unit) (i : Bool) :
    (elem_to_item (add_unit w i)).type = "unit" := rfl

theorem elem_to_item_lesson_type (l : Lesson) :
    (elem_to_item (add_lesson l)).type = "lesson" := rfl

theorem string_unit_ne_lesson : ("unit" : String) ≠ "lesson" := by decide

theorem string_lesson_ne_unit : ("lesson" : String) ≠ "unit" := by decide

theorem applyItem_elem_id (c : Course)
    (hn : (c.units.map Unit.unit_id).Nodup)
    (hln : (c.lessons.map Lesson.lesson_id).Nodup)
    (e : Element)
    (hsource : (∃ w ∈ c.units, ∃ i, e = add_unit w i) ∨
               (∃ l ∈ c.lessons, e = add_lesson l)) :
    applyItem c (elem_to_item e) = Except.ok c := by
  cases hsource with
  | inl h =>
    obtain ⟨w, hw, i, hei⟩ := h
    rw [hei]
    have hwt : wt (elem_to_item (add_unit w i)) := Or.inl rfl
    refine Eq.trans (applyItem_eq_ok c _ hwt) (congrArg Except.ok ?_)
    apply Course.ext2
    · show stepE Unit.unit_id "unit" set_item_fields_unit c.units
        (elem_to_item (add_unit w i)) = c.units
      unfold stepE
      rw [if_pos (elem_to_item_unit_type w i)]
      exact updateFirstE_first Unit.unit_id _ _ c.units w
        (find_unit_self c hn w hw) (set_self_unit w i)
    · show stepE Lesson.lesson_id "lesson" set_item_fields_lesson c.lessons
        (elem_to_item (add_unit w i)) = c.lessons
      unfold stepE
      rw [if_neg (show ¬ (elem_to_item (add_unit w i)).type = "lesson" from
        fun hc => string_unit_ne_lesson hc)]
  | inr h =>
    obtain ⟨l, hl, hel⟩ := h
    rw [hel]
    have hwt : wt (elem_to_item (add_lesson l)) := Or.inr rfl
    refine Eq.trans (applyItem_eq_ok c _ hwt) (congrArg Except.ok ?_)
    apply Course.ext2
    · show stepE Unit.unit_id "unit" set_item_fields_unit c.units
        (elem_to_item (add_lesson l)) = c.units
      unfold stepE
      rw [if_neg (show ¬ (elem_to_item (add_lesson l)).type = "unit" from
        fun hc => string_lesson_ne_unit hc)]
    · show stepE Lesson.lesson_id "lesson" set_item_fields_lesson c.lessons
        (elem_to_item (add_lesson l)) = c.lessons
      unfold stepE
      rw [if_pos (elem_to_item_lesson_type l)]
      exact updateFirstE_first Lesson.lesson_id _ _ c.lessons l
        (find_lesson_self c hln l hl) (set_self_lesson l)

theorem applyItems_id (c : Course) :
    ∀ l : List Item, (∀ it ∈ l, applyItem c it = Except.ok c) →
    applyItems c l = Except.ok c := by
  intro l
  induction l with
  | nil => intro _; rfl
  | cons it rest ih =>
    intro h
    show (match applyItem c it with
      | Except.ok c2 => applyItems c2 rest
      | Except.error e => Except.error e) = _
    rw [h it (List.mem_cons_self it rest)]
    exact ih (fun x hx => h x (List.mem_cons_of_mem it hx))

/-- The write payload C3 builds: exactly the flattener's element list,
each element's `availability` and `shown_when_unavailable` mapped to
themselves, and no scalar keys. -/
def roundtrip_payload (es : List Element) : Payload :=
  ⟨none, none, none, es.map elem_to_item⟩

/-! ### Claim C3 -/

/-- C3: feeding the flattener's own output back through the merger — each
element's `availability` and `shown_when_unavailable` mapped to themselves
— completes without error and leaves every unit's and lesson's
availability state (indeed the whole unit/lesson tree) unchanged. -/
theorem claim_C3 (db : Store) (es : List Element)
    (hn : (db.course.units.map Unit.unit_id).Nodup)
    (hln : (db.course.lessons.map Lesson.lesson_id).Nodup)
    (hes : traverse_course db.course = some es) :
    (put db (roundtrip_payload es)).store.course = db.course ∧
    (put db (roundtrip_payload es)).error = none := by
  have hid : ∀ it ∈ es.map elem_to_item,
      applyItem db.course it = Except.ok db.course := by
    intro it hit
    obtain ⟨e, he, heq⟩ := List.mem_map.mp hit
    rw [← heq]
    obtain ⟨v, hv, bl, hbl, hebl⟩ :=
      traverse_mem db.course db.course.units es hes e he
    exact applyItem_elem_id db.course hn hln e
      (unit_block_mem_source db.course v bl hv hbl e hebl)
  have happly := applyItems_id db.course (es.map elem_to_item) hid
  have hscrut : applyItems
      (ca_apply
        { db with settings := merge_settings db.settings (roundtrip_payload es) }
        (roundtrip_payload es)).course
      (roundtrip_payload es).element_settings = Except.ok db.course := by
    rw [ca_apply_course]
    exact happly
  unfold put
  simp [hscrut]

/-- A store holding the concrete course used to instantiate C3. -/
def c3_store : Store :=
  { settings := { whitelist := "w", show_lessons_in_syllabus := false },
    course := c2_course, course_availability := "private" }

theorem claim_C3_witness :
    (put c3_store (roundtrip_payload c2_es)).store.course = c3_store.course ∧
    (put c3_store (roundtrip_payload c2_es)).error = none :=
  claim_C3 c3_store c2_es (by decide) (by decide) rfl
